import Mathlib

/-!
Verification of the streaming xlsx/xlsb-to-parquet conversion pipeline
(`src/lib.rs`).  The Rust code is shallowly embedded: hash maps become
association lists, the bounded channels become explicit lists of messages
in arrival order, and each thread's loop becomes a pure fold over the
messages it consumes.  Sequence numbers and row/column indices are `Nat`;
cell values are `String`.
-/

namespace DataToParquet

/-! ## Association-list maps (embedding of `std::collections::HashMap`) -/

/-- Lookup in an association list (first matching key wins). -/
def lookupA {κ : Type} {β : Type} [DecidableEq κ] : List (κ × β) → κ → Option β
  | [], _ => none
  | (k, v) :: rest, i => if k = i then some v else lookupA rest i

/-- Remove every entry with the given key. -/
def removeA {κ : Type} {β : Type} [DecidableEq κ] (l : List (κ × β)) (k : κ) :
    List (κ × β) :=
  l.filter (fun p => !(decide (p.1 = k)))

/-- `HashMap::insert`: the new binding replaces any previous binding. -/
def insertA {κ : Type} {β : Type} [DecidableEq κ] (l : List (κ × β)) (k : κ) (v : β) :
    List (κ × β) :=
  (k, v) :: removeA l k

/-! ## Schema/Header Builder (`build_headers`, lib.rs 441-465) -/

/-- First pass of `build_headers`: one name per column position in
`[start_col, start_col + num_cols)`, taking the header cell text or the
empty string when the cell is absent. -/
def rawHeaders (cells : List (Nat × String)) (num_cols start_col : Nat) : List String :=
  (List.range num_cols).map (fun i => (lookupA cells (start_col + i)).getD "")

/-- Second pass: each empty name becomes `Field_<0-based position>`. -/
def fillEmpty (headers : List String) : List String :=
  headers.enum.map (fun p => if p.2 = "" then "Field_" ++ toString p.1 else p.2)

/-- Third pass, the `seen` counting loop: `seen` maps a (pre-rename) name to
the number of its occurrences so far; after incrementing, an occurrence with
count `> 1` is renamed `<name>_<count>`. -/
def dedupLoop : List String → List (String × Nat) → List String
  | [], _ => []
  | h :: rest, seen =>
    let count := (lookupA seen h).getD 0 + 1
    (if count > 1 then h ++ "_" ++ toString count else h) ::
      dedupLoop rest (insertA seen h count)

/-- The Column Name List builder (`build_headers`). -/
def build_headers (cells : List (Nat × String)) (num_cols start_col : Nat) : List String :=
  dedupLoop (fillEmpty (rawHeaders cells num_cols start_col)) []

/-- The claim's wording of duplicate resolution, as a declarative recursion:
the k-th repeat of a name (k = occurrences of that name up to and including
this position) keeps its name when k = 1 and becomes `<name>_<k>` otherwise.
`seen` is the list of names already passed. -/
def renameDupsSpec : List String → List String → List String
  | _, [] => []
  | seen, h :: rest =>
    let k := seen.count h + 1
    (if k = 1 then h else h ++ "_" ++ toString k) :: renameDupsSpec (seen ++ [h]) rest

/-! ## Batch Transformer (`create_record_batch_from_cells`, lib.rs 403-439) -/

/-- A cell as carried through the pipeline: (row index, column index, text). -/
abbrev RawCell := Nat × Nat × String

/-- A sequence-numbered Raw Batch. -/
abbrev RawBatch := Nat × List RawCell

/-- One iteration of the cell-grouping loop:
`row_map.entry(r).or_insert_with(|| { row_indices.push(r); new map }).insert(c, v)`.
The accumulator is `(row_map, row_indices)`. -/
def rowMapStep (acc : List (Nat × List (Nat × String)) × List Nat) (cell : RawCell) :
    List (Nat × List (Nat × String)) × List Nat :=
  match lookupA acc.1 cell.1 with
  | some m => (insertA acc.1 cell.1 (insertA m cell.2.1 cell.2.2), acc.2)
  | none => (insertA acc.1 cell.1 (insertA [] cell.2.1 cell.2.2), acc.2 ++ [cell.1])

/-- Group the batch's cells by row index, recording first-seen row order. -/
def buildRowMap (cells : List RawCell) : List (Nat × List (Nat × String)) × List Nat :=
  cells.foldl rowMapStep ([], [])

/-- `row_map.get(&r).and_then(|cols| cols.get(&c).cloned())`. -/
def lookupCell (map : List (Nat × List (Nat × String))) (r c : Nat) : Option String :=
  (lookupA map r).bind (fun cols => lookupA cols c)

/-- The batch's distinct row indices after `row_indices.sort_unstable()`. -/
def batchRows (cells : List RawCell) : List Nat :=
  List.insertionSort (fun a b => a ≤ b) (buildRowMap cells).2

/-- `RecordBatch::try_new`: succeeds when the column count matches the schema
and all column arrays have one common length. -/
def recordBatchTryNew (numFields : Nat) (columns : List (List (Option String))) :
    Except String (List (List (Option String))) :=
  if columns.length == numFields &&
      columns.all (fun col => col.length == (columns.head?.map List.length).getD 0) then
    Except.ok columns
  else
    Except.error "Failed to create record batch"

/-- `create_record_batch_from_cells`: group cells by row, sort the distinct
row indices ascending, and build one array of optional text per header
column, reading each `(row, column)` slot from the cell map. -/
def create_record_batch_from_cells (num_header_cols : Nat) (cells : List RawCell)
    (start_col : Nat) : Except String (List (List (Option String))) :=
  recordBatchTryNew num_header_cols
    ((List.range num_header_cols).map (fun i =>
      (batchRows cells).map (fun r => lookupCell (buildRowMap cells).1 r (start_col + i))))

/-- The worker loop body (lib.rs 247-268): transform one raw batch, carrying
the sequence id over unchanged to the result message. -/
def worker_process (headers_len start_col : Nat) (msg : RawBatch) :
    Except String (Nat × List (List (Option String))) :=
  match create_record_batch_from_cells headers_len msg.2 start_col with
  | Except.ok rb => Except.ok (msg.1, rb)
  | Except.error e => Except.error e

/-- The value of the cell of `cells` at position `(r, c)` appearing latest in
the list, if any. -/
def lastVal (cells : List RawCell) (r c : Nat) : Option String :=
  ((cells.filter (fun x => decide (x.1 = r) && decide (x.2.1 = c))).map
    (fun x => x.2.2)).getLast?

/-! ## ConversionContext: the driving row accumulator (lib.rs 127-383)

The channels and threads are replaced by their observable interaction: `sent`
records the Raw Batches handed to the work queue in emission order, and
`headers` records the schema fixed when `start_workers_and_writer` runs
(`headers = none` means the workers and the writer thread were never
spawned). -/

structure Dimensions where
  start_row : Nat
  end_row : Nat
  start_col : Nat
  end_col : Nat

structure Ctx where
  header_row_idx : Nat
  num_cols : Nat
  start_col : Nat
  batch_size : Nat
  current_row : Option Nat
  current_row_cells : List (Nat × String)
  raw_cells_buffer : List RawCell
  current_batch_rows : Nat
  batch_counter : Nat
  workers_started : Bool
  total_rows : Nat
  headers : Option (List String)
  sent : List RawBatch

/-- `ConversionContext::new`. -/
def Ctx.new (dims : Dimensions) (skip_rows batch_size : Nat) : Ctx :=
  { header_row_idx := dims.start_row + skip_rows
    num_cols := dims.end_col - dims.start_col + 1
    start_col := dims.start_col
    batch_size := batch_size
    current_row := none
    current_row_cells := []
    raw_cells_buffer := []
    current_batch_rows := 0
    batch_counter := 0
    workers_started := false
    total_rows := 0
    headers := none
    sent := [] }

/-- `start_workers_and_writer` (lib.rs 225-331), observable part: fix the
Column Name List (and hence the schema) from the current row's cells. -/
def start_workers_and_writer (ctx : Ctx) : Ctx :=
  { ctx with
    headers := some (build_headers ctx.current_row_cells ctx.num_cols ctx.start_col) }

/-- `handle_header_phase` (lib.rs 206-223).  On a row change whose closed row
is the header row, start the workers and writer; in all cases the incoming
cell is inserted into `current_row_cells`. -/
def handle_header_phase (ctx : Ctx) (row col : Nat) (value : String) : Ctx :=
  let ctx1 :=
    match ctx.current_row with
    | none => { ctx with current_row := some row }
    | some prev_row =>
      if prev_row = row then ctx
      else
        let ctx2 :=
          if prev_row = ctx.header_row_idx then
            { start_workers_and_writer ctx with workers_started := true }
          else ctx
        { ctx2 with current_row_cells := [], current_row := some row }
  { ctx1 with current_row_cells := insertA ctx1.current_row_cells col value }

/-- `send_batch` (lib.rs 347-360): seal the buffer as a Raw Batch tagged with
the next sequence id, then reset the counter and the buffer.  (The send
itself can only fail when the work channel is closed, which cannot happen
while the context still holds its sender.) -/
def send_batch (ctx : Ctx) : Ctx :=
  { ctx with
    sent := ctx.sent ++ [(ctx.batch_counter, ctx.raw_cells_buffer)]
    raw_cells_buffer := []
    batch_counter := ctx.batch_counter + 1
    current_batch_rows := 0 }

/-- `handle_worker_phase` (lib.rs 333-345).  On a row change, count the new
row and seal the batch when the counter reaches `batch_size`; then push the
cell onto the raw buffer. -/
def handle_worker_phase (ctx : Ctx) (row col : Nat) (value : String) : Ctx :=
  let ctx1 :=
    if ctx.current_row = some row then ctx
    else
      let ctx2 :=
        { ctx with
          current_batch_rows := ctx.current_batch_rows + 1
          current_row := some row
          total_rows := ctx.total_rows + 1 }
      if ctx2.current_batch_rows ≥ ctx2.batch_size then send_batch ctx2 else ctx2
  { ctx1 with raw_cells_buffer := ctx1.raw_cells_buffer ++ [(row, col, value)] }

/-- `process_cell` (lib.rs 198-204). -/
def process_cell (ctx : Ctx) (cell : RawCell) : Ctx :=
  if ctx.workers_started then handle_worker_phase ctx cell.1 cell.2.1 cell.2.2
  else handle_header_phase ctx cell.1 cell.2.1 cell.2.2

/-- The driving loop of `convert_xlsx_to_parquet` / `convert_xlsb_to_parquet`:
feed every cell of the stream, in order, through `process_cell`. -/
def runCells (ctx : Ctx) (cells : List RawCell) : Ctx :=
  cells.foldl process_cell ctx

/-- `finish`, sealing part (lib.rs 363-366): enqueue any non-empty leftover
batch. -/
def finish_sends (ctx : Ctx) : Ctx :=
  if ctx.raw_cells_buffer.isEmpty then ctx else send_batch ctx

/-- `finish`, join part (lib.rs 371-374): `for handle in worker_threads
{ let _ = handle.join(); }` — each worker's result is discarded. -/
def drain_worker_joins : List (Except String Unit) → Unit
  | [] => ()
  | _ :: rest => drain_worker_joins rest

/-- `finish`, join part (lib.rs 371-381): after discarding the worker join
results, the writer's join result is the one returned. -/
def finish_result (worker_results : List (Except String Unit))
    (writer_result : Except String Unit) : Except String Unit :=
  match drain_worker_joins worker_results with
  | () => writer_result

/-! ## Ordered Sink Writer (`start_workers_and_writer`, writer thread, lib.rs 278-328)

The writer thread receives `(id, RecordBatch)` messages from the result
channel.  The batch payload is opaque to the ordering logic, so it is a type
parameter `β`.  The `while let Some(next_batch) = buffer.remove(&next_expected_id)`
loop is embedded with explicit fuel: each iteration removes one buffered entry,
so `buffer.length` steps always suffice. -/

structure WriterState (β : Type) where
  buffer : List (Nat × β)
  next_expected_id : Nat
  written : List β

/-- The writer's inner flush loop: repeatedly remove `next_expected_id` from the
holding buffer and write it, until it is absent. -/
def writerDrain {β : Type} : Nat → WriterState β → WriterState β
  | 0, st => st
  | fuel + 1, st =>
    match lookupA st.buffer st.next_expected_id with
    | some b =>
      writerDrain fuel
        { buffer := removeA st.buffer st.next_expected_id
          next_expected_id := st.next_expected_id + 1
          written := st.written ++ [b] }
    | none => st

/-- One iteration of the writer's `recv` loop on message `(id, batch)`:
write immediately when `id == next_expected_id` (then flush the buffer),
otherwise insert into the holding buffer. -/
def writerStep {β : Type} (st : WriterState β) (msg : Nat × β) : WriterState β :=
  if msg.1 = st.next_expected_id then
    writerDrain st.buffer.length
      { buffer := st.buffer
        next_expected_id := st.next_expected_id + 1
        written := st.written ++ [msg.2] }
  else
    { st with buffer := insertA st.buffer msg.1 msg.2 }

/-- The full writer loop over the messages received from the result channel,
in arrival order. -/
def writerRun {β : Type} (msgs : List (Nat × β)) : WriterState β :=
  msgs.foldl writerStep { buffer := [], next_expected_id := 0, written := [] }

/-- After the result channel closes the writer only warns when the holding
buffer is non-empty; it then closes the output and returns `Ok(())`.
The pair is (warning emitted?, thread result). -/
def writerFinish {β : Type} (st : WriterState β) : Bool × Except String Unit :=
  (!st.buffer.isEmpty, Except.ok ())

/-! ## Sheet resolution (`get_sheet_name`, lib.rs 105-124) -/

/-- `get_sheet_name`: explicit name wins; else index (error when out of
bounds); else the first sheet (error when the workbook has none). -/
def get_sheet_name (sheet_names : List String) (sheet_name : Option String)
    (sheet_index : Option Nat) : Except String String :=
  match sheet_name with
  | some n => Except.ok n
  | none =>
    match sheet_index with
    | some index =>
      match sheet_names[index]? with
      | some s => Except.ok s
      | none => Except.error ("Sheet index " ++ toString index ++ " out of bounds")
    | none =>
      match sheet_names.head? with
      | some s => Except.ok s
      | none => Except.error "No worksheets found"

/-! ## Invariants used in the correctness proofs -/

/-- Writer invariant between messages: with `S` the ids received so far and
`f` giving the batch payload produced for each id, the writer has written
exactly the prefix `0 .. next_expected_id - 1`, has not yet received
`next_expected_id`, and holds in its buffer exactly the received ids beyond
`next_expected_id`. -/
def WriterInv {β : Type} (f : Nat → β) (S : List Nat) (st : WriterState β) : Prop :=
  st.written = (List.range st.next_expected_id).map f ∧
  (∀ i, i < st.next_expected_id → i ∈ S) ∧
  st.next_expected_id ∉ S ∧
  (∀ i, lookupA st.buffer i =
    if i ∈ S ∧ st.next_expected_id < i then some (f i) else none)

/-- State entering the flush loop: like `WriterInv` but `next_expected_id`
may itself still be buffered. -/
def WriterPre {β : Type} (f : Nat → β) (S : List Nat) (st : WriterState β) : Prop :=
  st.written = (List.range st.next_expected_id).map f ∧
  (∀ i, i < st.next_expected_id → i ∈ S) ∧
  (∀ i, lookupA st.buffer i =
    if i ∈ S ∧ st.next_expected_id ≤ i then some (f i) else none)

/-! ## Lemmas about the association-list maps -/

theorem lookupA_cons {κ β : Type} [DecidableEq κ] (a : κ) (b : β) (rest : List (κ × β))
    (i : κ) : lookupA ((a, b) :: rest) i = if a = i then some b else lookupA rest i := rfl

theorem removeA_cons {κ β : Type} [DecidableEq κ] (a : κ) (b : β) (rest : List (κ × β))
    (k : κ) :
    removeA ((a, b) :: rest) k =
      if a = k then removeA rest k else (a, b) :: removeA rest k := by
  by_cases h : a = k <;> simp [removeA, List.filter_cons, h]

theorem lookupA_removeA {κ β : Type} [DecidableEq κ] (l : List (κ × β)) (k i : κ) :
    lookupA (removeA l k) i = if k = i then none else lookupA l i := by
  induction l with
  | nil => simp [removeA, lookupA]
  | cons p rest ih =>
    obtain ⟨a, b⟩ := p
    rw [removeA_cons]
    by_cases hak : a = k
    · rw [if_pos hak, ih, lookupA_cons]
      by_cases hki : k = i
      · simp [hki]
      · have hai : ¬ a = i := fun hcontra => hki (hak ▸ hcontra)
        simp [hki, hai]
    · rw [if_neg hak, lookupA_cons, lookupA_cons]
      by_cases hai : a = i
      · have hki : ¬ k = i := fun hcontra => hak (by rw [hcontra, hai])
        simp [hai, hki]
      · simp [hai, ih]

theorem lookupA_insertA {κ β : Type} [DecidableEq κ] (l : List (κ × β)) (k i : κ) (v : β) :
    lookupA (insertA l k v) i = if k = i then some v else lookupA l i := by
  unfold insertA
  rw [lookupA_cons, lookupA_removeA]
  by_cases h : k = i <;> simp [h]

theorem length_removeA_lt {κ β : Type} [DecidableEq κ] (l : List (κ × β)) (k : κ) (v : β)
    (h : lookupA l k = some v) : (removeA l k).length < l.length := by
  induction l with
  | nil => simp [lookupA] at h
  | cons p rest ih =>
    obtain ⟨a, b⟩ := p
    rw [removeA_cons]
    by_cases hak : a = k
    · rw [if_pos hak]
      have hle : (removeA rest k).length ≤ rest.length := List.length_filter_le _ _
      simpa using Nat.lt_succ_of_le hle
    · rw [if_neg hak]
      rw [lookupA_cons] at h
      have hik : ¬ a = k := hak
      rw [if_neg hik] at h
      simpa using Nat.succ_lt_succ (ih h)

theorem lookupA_eq_none_of_nil {κ β : Type} [DecidableEq κ] (l : List (κ × β))
    (h : ∀ i, lookupA l i = none) : l = [] := by
  cases l with
  | nil => rfl
  | cons p rest =>
    have := h p.1
    simp [lookupA] at this

/-! ## The Ordered Sink Writer reorders out-of-order arrivals -/

theorem writerDrain_inv {β : Type} (f : Nat → β) (S : List Nat) :
    ∀ (fuel : Nat) (st : WriterState β), st.buffer.length ≤ fuel →
      WriterPre f S st → WriterInv f S (writerDrain fuel st) := by
  intro fuel
  induction fuel with
  | zero =>
    intro st hlen hpre
    obtain ⟨hw, hlt, hbuf⟩ := hpre
    have hempty : st.buffer = [] := List.length_eq_zero.mp (Nat.le_zero.mp hlen)
    have hns : st.next_expected_id ∉ S := by
      intro hmem
      have h0 := hbuf st.next_expected_id
      rw [hempty] at h0
      simp [lookupA, hmem] at h0
    show WriterInv f S st
    refine ⟨hw, hlt, hns, fun i => ?_⟩
    rw [hempty]
    by_cases hc : i ∈ S ∧ st.next_expected_id < i
    · have h0 := hbuf i
      rw [hempty] at h0
      rw [if_pos ⟨hc.1, Nat.le_of_lt hc.2⟩] at h0
      simp [lookupA] at h0
    · simp [lookupA, hc]
  | succ fuel ih =>
    intro st hlen hpre
    obtain ⟨hw, hlt, hbuf⟩ := hpre
    cases hlook : lookupA st.buffer st.next_expected_id with
    | none =>
      have hns : st.next_expected_id ∉ S := by
        intro hmem
        have h0 := hbuf st.next_expected_id
        rw [hlook, if_pos ⟨hmem, Nat.le_refl _⟩] at h0
        exact Option.noConfusion h0
      have hdrain : writerDrain (fuel + 1) st = st := by
        simp only [writerDrain, hlook]
      rw [hdrain]
      refine ⟨hw, hlt, hns, fun i => ?_⟩
      have h0 := hbuf i
      by_cases hc : i ∈ S ∧ st.next_expected_id < i
      · rw [if_pos ⟨hc.1, Nat.le_of_lt hc.2⟩] at h0
        rw [h0, if_pos hc]
      · rw [if_neg hc]
        by_cases hc2 : i ∈ S ∧ st.next_expected_id ≤ i
        · have hie : i = st.next_expected_id := by
            rcases hc2 with ⟨hiS, hle⟩
            rcases Nat.lt_or_ge st.next_expected_id i with hlt2 | hge
            · exact absurd ⟨hiS, hlt2⟩ hc
            · exact Nat.le_antisymm hge hle
          rw [hie] at hc2
          exact absurd hc2.1 hns
        · rw [if_neg hc2] at h0
          exact h0
    | some b =>
      have hcond : st.next_expected_id ∈ S ∧ b = f st.next_expected_id := by
        have h0 := hbuf st.next_expected_id
        rw [hlook] at h0
        by_cases hc : st.next_expected_id ∈ S ∧
            st.next_expected_id ≤ st.next_expected_id
        · rw [if_pos hc] at h0
          exact ⟨hc.1, Option.some.inj h0⟩
        · rw [if_neg hc] at h0
          exact absurd h0 (Option.noConfusion)
      have hdrain : writerDrain (fuel + 1) st =
          writerDrain fuel
            { buffer := removeA st.buffer st.next_expected_id
              next_expected_id := st.next_expected_id + 1
              written := st.written ++ [b] } := by
        simp only [writerDrain, hlook]
      rw [hdrain]
      apply ih
      · show (removeA st.buffer st.next_expected_id).length ≤ fuel
        have hdec := length_removeA_lt st.buffer st.next_expected_id b hlook
        omega
      · refine ⟨?_, ?_, ?_⟩
        · show st.written ++ [b] = (List.range (st.next_expected_id + 1)).map f
          rw [hw, List.range_succ, List.map_append, hcond.2]
          rfl
        · show ∀ i, i < st.next_expected_id + 1 → i ∈ S
          intro i hi
          rcases Nat.lt_or_ge i st.next_expected_id with hlt2 | hge
          · exact hlt i hlt2
          · have : i = st.next_expected_id := by omega
            rw [this]
            exact hcond.1
        · show ∀ i, lookupA (removeA st.buffer st.next_expected_id) i =
            if i ∈ S ∧ st.next_expected_id + 1 ≤ i then some (f i) else none
          intro i
          rw [lookupA_removeA]
          by_cases hie : st.next_expected_id = i
          · rw [if_pos hie]
            have : ¬ (i ∈ S ∧ st.next_expected_id + 1 ≤ i) := by
              intro hcontra
              omega
            rw [if_neg this]
          · rw [if_neg hie, hbuf i]
            by_cases hiS : i ∈ S
            · by_cases hle : st.next_expected_id ≤ i
              · have hle2 : st.next_expected_id + 1 ≤ i := by
                  rcases Nat.eq_or_lt_of_le hle with heq | hlt3
                  · exact absurd heq hie
                  · exact hlt3
                rw [if_pos ⟨hiS, hle⟩, if_pos ⟨hiS, hle2⟩]
              · have h2 : ¬ (i ∈ S ∧ st.next_expected_id + 1 ≤ i) := by
                  intro hcontra
                  exact hle (Nat.le_of_succ_le hcontra.2)
                rw [if_neg (fun hcontra => hle hcontra.2), if_neg h2]
            · rw [if_neg (fun hcontra => hiS hcontra.1),
                if_neg (fun hcontra => hiS hcontra.1)]

theorem writerStep_inv {β : Type} (f : Nat → β) {S : List Nat} {st : WriterState β}
    (j : Nat) (hInv : WriterInv f S st) (hj : j ∉ S) :
    WriterInv f (j :: S) (writerStep st (j, f j)) := by
  obtain ⟨hw, hlt, hns, hbuf⟩ := hInv
  by_cases hje : j = st.next_expected_id
  · rw [writerStep, if_pos hje]
    apply writerDrain_inv f (j :: S) st.buffer.length
    · exact Nat.le_refl _
    refine ⟨?_, ?_, ?_⟩
    · show st.written ++ [f j] = (List.range (st.next_expected_id + 1)).map f
      rw [hw, List.range_succ, List.map_append, hje]
      rfl
    · show ∀ i, i < st.next_expected_id + 1 → i ∈ j :: S
      intro i hi
      rcases Nat.lt_or_ge i st.next_expected_id with hlt2 | hge
      · exact List.mem_cons_of_mem _ (hlt i hlt2)
      · have : i = st.next_expected_id := by omega
        rw [this, ← hje]
        exact List.mem_cons_self _ _
    · show ∀ i, lookupA st.buffer i =
        if i ∈ j :: S ∧ st.next_expected_id + 1 ≤ i then some (f i) else none
      intro i
      rw [hbuf i]
      by_cases hc : i ∈ S ∧ st.next_expected_id < i
      · have : i ∈ j :: S ∧ st.next_expected_id + 1 ≤ i :=
          ⟨List.mem_cons_of_mem _ hc.1, hc.2⟩
        rw [if_pos hc, if_pos this]
      · by_cases hc2 : i ∈ j :: S ∧ st.next_expected_id + 1 ≤ i
        · rcases List.mem_cons.mp hc2.1 with hij | hiS
          · exfalso
            have h2 := hc2.2
            rw [hij, hje] at h2
            exact Nat.not_succ_le_self _ h2
          · exact absurd ⟨hiS, Nat.lt_of_succ_le hc2.2⟩ hc
        · rw [if_neg hc, if_neg hc2]
  · rw [writerStep, if_neg hje]
    have hjgt : st.next_expected_id < j := by
      rcases Nat.lt_or_ge j st.next_expected_id with hlt2 | hge
      · exact absurd (hlt j hlt2) hj
      · rcases Nat.eq_or_lt_of_le hge with heq | hlt3
        · exact absurd heq.symm hje
        · exact hlt3
    refine ⟨hw, ?_, ?_, ?_⟩
    · intro i hi
      exact List.mem_cons_of_mem _ (hlt i hi)
    · intro hmem
      rcases List.mem_cons.mp hmem with heq | hmem2
      · exact hje heq.symm
      · exact hns hmem2
    · intro i
      show lookupA (insertA st.buffer j (f j)) i = _
      rw [lookupA_insertA]
      by_cases hij : j = i
      · rw [if_pos hij, ← hij]
        have : j ∈ j :: S ∧ st.next_expected_id < j :=
          ⟨List.mem_cons_self _ _, hjgt⟩
        rw [if_pos this]
      · rw [if_neg hij, hbuf i]
        by_cases hiS : i ∈ S
        · by_cases hlt2 : st.next_expected_id < i
          · rw [if_pos ⟨hiS, hlt2⟩, if_pos ⟨List.mem_cons_of_mem _ hiS, hlt2⟩]
          · rw [if_neg (fun hcontra => hlt2 hcontra.2),
              if_neg (fun hcontra => hlt2 hcontra.2)]
        · rw [if_neg (fun hcontra => hiS hcontra.1)]
          have : ¬ (i ∈ j :: S ∧ st.next_expected_id < i) := by
            intro hcontra
            rcases List.mem_cons.mp hcontra.1 with heq | hmem2
            · exact hij heq.symm
            · exact hiS hmem2
          rw [if_neg this]

theorem WriterInv_congr {β : Type} (f : Nat → β) {S₁ S₂ : List Nat} {st : WriterState β}
    (h : ∀ i, i ∈ S₁ ↔ i ∈ S₂) (hInv : WriterInv f S₁ st) : WriterInv f S₂ st := by
  obtain ⟨hw, hlt, hns, hbuf⟩ := hInv
  refine ⟨hw, fun i hi => (h i).mp (hlt i hi), fun hmem => hns ((h _).mpr hmem),
    fun i => ?_⟩
  rw [hbuf i]
  by_cases hiS : i ∈ S₁
  · by_cases hlt2 : st.next_expected_id < i
    · rw [if_pos ⟨hiS, hlt2⟩, if_pos ⟨(h i).mp hiS, hlt2⟩]
    · rw [if_neg (fun hc => hlt2 hc.2), if_neg (fun hc => hlt2 hc.2)]
  · rw [if_neg (fun hc => hiS hc.1), if_neg (fun hc => hiS ((h i).mpr hc.1))]

theorem writerFold_inv {β : Type} (f : Nat → β) :
    ∀ (msgs : List (Nat × β)) (S : List Nat) (st : WriterState β),
      WriterInv f S st →
      (∀ p ∈ msgs, p.2 = f p.1) →
      (msgs.map Prod.fst).Nodup →
      (∀ p ∈ msgs, p.1 ∉ S) →
      WriterInv f (msgs.map Prod.fst ++ S) (msgs.foldl writerStep st) := by
  intro msgs
  induction msgs with
  | nil =>
    intro S st hInv _ _ _
    simpa using hInv
  | cons p rest ih =>
    intro S st hInv hval hnd hnot
    obtain ⟨j, b⟩ := p
    have hb : b = f j := hval (j, b) (List.mem_cons_self _ _)
    subst hb
    have hjS : j ∉ S := hnot (j, f j) (List.mem_cons_self _ _)
    have hstep := writerStep_inv f j hInv hjS
    have hnd2 : (rest.map Prod.fst).Nodup := by
      rw [List.map_cons] at hnd
      exact hnd.of_cons
    have hhead : j ∉ rest.map Prod.fst := by
      rw [List.map_cons] at hnd
      exact (List.nodup_cons.mp hnd).1
    have hrest := ih (j :: S) (writerStep st (j, f j)) hstep
      (fun q hq => hval q (List.mem_cons_of_mem _ hq)) hnd2
      (fun q hq hmem => by
        rcases List.mem_cons.mp hmem with heq | hmem2
        · exact hhead (heq ▸ List.mem_map_of_mem Prod.fst hq)
        · exact hnot q (List.mem_cons_of_mem _ hq) hmem2)
    have hmemeq : ∀ i, i ∈ rest.map Prod.fst ++ (j :: S) ↔
        i ∈ ((j, f j) :: rest).map Prod.fst ++ S := by
      intro i
      simp only [List.map_cons, List.mem_append, List.mem_cons]
      tauto
    exact WriterInv_congr f hmemeq hrest

/-- Claim C1: for every input whose data rows are partitioned into Raw
Batches with sequence ids `0..k`, the Ordered Sink Writer writes the
Columnar Batches to the sink strictly in id order `0,1,...,k`, regardless
of the order in which they arrive on the result queue (early arrivals are
held in the buffer map and flushed exactly when `next_expected_id` reaches
them, so the holding buffer is empty at the end). -/
theorem writer_writes_batches_in_id_order {β : Type} (k : Nat) (f : Nat → β)
    (msgs : List (Nat × β))
    (hperm : msgs.Perm ((List.range (k + 1)).map (fun i => (i, f i)))) :
    (writerRun msgs).written = (List.range (k + 1)).map f ∧
      (writerRun msgs).buffer = [] := by
  have hval : ∀ p ∈ msgs, p.2 = f p.1 := by
    intro p hp
    have hp2 := hperm.mem_iff.mp hp
    rcases List.mem_map.mp hp2 with ⟨i, _, heq⟩
    rw [← heq]
  have hids : (msgs.map Prod.fst).Perm (List.range (k + 1)) := by
    have h1 := hperm.map Prod.fst
    rw [List.map_map] at h1
    have h2 : (Prod.fst ∘ fun i : Nat => (i, f i)) = id := funext (fun i => rfl)
    rw [h2, List.map_id] at h1
    exact h1
  have hnd : (msgs.map Prod.fst).Nodup := hids.nodup_iff.mpr (List.nodup_range _)
  have hInit : WriterInv f []
      ({ buffer := [], next_expected_id := 0, written := [] } : WriterState β) := by
    refine ⟨rfl, ?_, ?_, ?_⟩
    · intro i hi
      exact absurd hi (Nat.not_lt_zero i)
    · simp
    · intro i
      simp [lookupA]
  have hfold := writerFold_inv f msgs [] _ hInit hval hnd
    (by intro p _ hc; simp at hc)
  unfold writerRun
  obtain ⟨hw, hlt, hns, hbuf⟩ := hfold
  have hmem : ∀ i, (i ∈ msgs.map Prod.fst ++ ([] : List Nat)) ↔ i < k + 1 := by
    intro i
    rw [List.append_nil, hids.mem_iff, List.mem_range]
  have hnext :
      (msgs.foldl writerStep
        ({ buffer := [], next_expected_id := 0, written := [] } : WriterState β)
        ).next_expected_id = k + 1 := by
    by_contra hne
    rcases Nat.lt_or_ge (msgs.foldl writerStep
        ({ buffer := [], next_expected_id := 0, written := [] } : WriterState β)
        ).next_expected_id (k + 1) with hlt2 | hge
    · exact hns ((hmem _).mpr hlt2)
    · have hgt : k + 1 <
          (msgs.foldl writerStep
            ({ buffer := [], next_expected_id := 0, written := [] } : WriterState β)
            ).next_expected_id := by omega
      have := (hmem (k + 1)).mp (hlt (k + 1) hgt)
      omega
  constructor
  · rw [hw, hnext]
  · apply lookupA_eq_none_of_nil
    intro i
    rw [hbuf i]
    by_cases hiS : i ∈ msgs.map Prod.fst ++ ([] : List Nat)
    · have hi : i < k + 1 := (hmem i).mp hiS
      have hnot : ¬ ((msgs.foldl writerStep
          ({ buffer := [], next_expected_id := 0, written := [] } : WriterState β)
          ).next_expected_id < i) := by
        rw [hnext]
        omega
      rw [if_neg (fun hc => hnot hc.2)]
    · rw [if_neg (fun hc => hiS hc.1)]

/-- Witness for C1: a concrete out-of-order arrival list `[(1,·),(2,·),(0,·)]`
is written back in id order `0,1,2`. -/
theorem writer_writes_batches_in_id_order_witness :
    (writerRun [(1, "b1"), (2, "b2"), (0, "b0")]).written =
        (List.range 3).map (fun i => "b" ++ toString i) ∧
      (writerRun [(1, "b1"), (2, "b2"), (0, "b0")]).buffer = [] :=
  writer_writes_batches_in_id_order 2 (fun i => "b" ++ toString i)
    [(1, "b1"), (2, "b2"), (0, "b0")] (by decide)

/-! ## A stale sequence id is buffered, never fatal -/

theorem writerDrain_stale {β : Type} :
    ∀ (fuel : Nat) (st : WriterState β) (k : Nat), k < st.next_expected_id →
      lookupA (writerDrain fuel st).buffer k = lookupA st.buffer k ∧
        st.next_expected_id ≤ (writerDrain fuel st).next_expected_id := by
  intro fuel
  induction fuel with
  | zero =>
    intro st k _
    exact ⟨rfl, Nat.le_refl _⟩
  | succ fuel ih =>
    intro st k hk
    cases hlook : lookupA st.buffer st.next_expected_id with
    | none =>
      have hdrain : writerDrain (fuel + 1) st = st := by
        simp only [writerDrain, hlook]
      rw [hdrain]
      exact ⟨rfl, Nat.le_refl _⟩
    | some b =>
      have hdrain : writerDrain (fuel + 1) st =
          writerDrain fuel
            { buffer := removeA st.buffer st.next_expected_id
              next_expected_id := st.next_expected_id + 1
              written := st.written ++ [b] } := by
        simp only [writerDrain, hlook]
      rw [hdrain]
      obtain ⟨h1, h2⟩ := ih
        { buffer := removeA st.buffer st.next_expected_id
          next_expected_id := st.next_expected_id + 1
          written := st.written ++ [b] } k (Nat.lt_succ_of_lt hk)
      constructor
      · rw [h1]
        show lookupA (removeA st.buffer st.next_expected_id) k = lookupA st.buffer k
        rw [lookupA_removeA, if_neg]
        intro heq
        omega
      · exact Nat.le_trans (Nat.le_succ _) h2

theorem writerStep_stale {β : Type} (st : WriterState β) (m : Nat × β) (k : Nat)
    (hk : k < st.next_expected_id) (hbuf : lookupA st.buffer k ≠ none) :
    k < (writerStep st m).next_expected_id ∧
      lookupA (writerStep st m).buffer k ≠ none := by
  by_cases h : m.1 = st.next_expected_id
  · rw [writerStep, if_pos h]
    obtain ⟨h1, h2⟩ := writerDrain_stale st.buffer.length
      { buffer := st.buffer
        next_expected_id := st.next_expected_id + 1
        written := st.written ++ [m.2] } k (Nat.lt_succ_of_lt hk)
    constructor
    · exact Nat.lt_of_lt_of_le (Nat.lt_succ_of_lt hk) h2
    · rw [h1]
      exact hbuf
  · rw [writerStep, if_neg h]
    refine ⟨hk, ?_⟩
    show lookupA (insertA st.buffer m.1 m.2) k ≠ none
    rw [lookupA_insertA]
    by_cases hmk : m.1 = k
    · rw [if_pos hmk]
      exact fun hc => Option.noConfusion hc
    · rw [if_neg hmk]
      exact hbuf

theorem writerFold_stale {β : Type} :
    ∀ (msgs : List (Nat × β)) (st : WriterState β) (k : Nat),
      k < st.next_expected_id → lookupA st.buffer k ≠ none →
      k < (msgs.foldl writerStep st).next_expected_id ∧
        lookupA (msgs.foldl writerStep st).buffer k ≠ none := by
  intro msgs
  induction msgs with
  | nil =>
    intro st k h1 h2
    exact ⟨h1, h2⟩
  | cons m rest ih =>
    intro st k h1 h2
    obtain ⟨h3, h4⟩ := writerStep_stale st m k h1 h2
    exact ih _ k h3 h4

/-- Claim C8 counterexample: on the concrete arrival list `[(0,"a"), (0,"b")]`
the second message arrives with id `0 < next_expected_id = 1`; the writer
inserts it into the holding buffer and completes with `Ok(())` plus a mere
warning — the stale batch is buffered and the run does not fail, contrary
to the claim. -/
theorem writer_stale_id_buffered_counterexample :
    (writerRun [(0, "a"), (0, "b")]).next_expected_id = 1 ∧
      (writerRun [(0, "a"), (0, "b")]).buffer = [(0, "b")] ∧
      (writerRun [(0, "a"), (0, "b")]).written = ["a"] ∧
      writerFinish (writerRun [(0, "a"), (0, "b")]) = (true, Except.ok ()) :=
  ⟨rfl, rfl, rfl, rfl⟩

/-- Claim C8 (amended): a Columnar Batch arriving with a sequence id
strictly below `next_expected_id` is inserted into the holding map like any
early arrival (nothing is written and `next_expected_id` is unchanged);
because `next_expected_id` never decreases, that id is never flushed, so at
queue closure the holding map is non-empty and the writer emits only a
warning while still returning `Ok(())` — the run does not fail. -/
theorem writer_stale_id_warns_only {β : Type} (st : WriterState β) (id : Nat) (b : β)
    (msgs : List (Nat × β)) (h : id < st.next_expected_id) :
    (writerStep st (id, b)).written = st.written ∧
      (writerStep st (id, b)).next_expected_id = st.next_expected_id ∧
      lookupA (writerStep st (id, b)).buffer id = some b ∧
      writerFinish (msgs.foldl writerStep (writerStep st (id, b))) =
        (true, Except.ok ()) := by
  have hne : ¬ ((id, b).1 = st.next_expected_id) := by
    intro hc
    have hc2 : id = st.next_expected_id := hc
    omega
  rw [writerStep, if_neg hne]
  refine ⟨rfl, rfl, ?_, ?_⟩
  · show lookupA (insertA st.buffer id b) id = some b
    rw [lookupA_insertA, if_pos rfl]
  · have hstale := writerFold_stale msgs
      { st with buffer := insertA st.buffer (id, b).1 (id, b).2 } id h
      (by
        show lookupA (insertA st.buffer id b) id ≠ none
        rw [lookupA_insertA, if_pos rfl]
        exact fun hc => Option.noConfusion hc)
    obtain ⟨_, hlook⟩ := hstale
    unfold writerFinish
    cases hbufeq : (msgs.foldl writerStep
        { st with buffer := insertA st.buffer (id, b).1 (id, b).2 }).buffer with
    | nil =>
      exfalso
      rw [hbufeq] at hlook
      exact hlook rfl
    | cons x xs =>
      rfl

/-! ## Error propagation at `finish` -/

/-- Claim C4 counterexample: a failed worker join (`Err`) together with a
successful writer join yields `Ok(())` from the join sequence — the worker
error is not propagated and the operation does not abort. -/
theorem worker_error_not_propagated_counterexample :
    finish_result [Except.error "worker transform failed"] (Except.ok ()) =
      Except.ok () := rfl

/-- Claim C4 (amended): the driving task discards every worker join result
(`let _ = handle.join()`); only the writer join's result is propagated as
the result of the conversion, whatever the worker results are. -/
theorem finish_propagates_only_writer_result
    (worker_results : List (Except String Unit))
    (writer_result : Except String Unit) :
    finish_result worker_results writer_result = writer_result := rfl

/-! ## Sheet resolution -/

/-- Claim C9: an explicit sheet name takes precedence over any index; an
index alone resolves via the sheet list and fails when out of bounds; with
neither, the first sheet is used and resolution fails when the workbook has
no sheets. -/
theorem get_sheet_name_resolution (names : List String) (n : String)
    (oi : Option Nat) (i : Nat) :
    (get_sheet_name names (some n) oi = Except.ok n) ∧
      (∀ s, names[i]? = some s →
        get_sheet_name names none (some i) = Except.ok s) ∧
      (names[i]? = none →
        get_sheet_name names none (some i) =
          Except.error ("Sheet index " ++ toString i ++ " out of bounds")) ∧
      (∀ s, names.head? = some s →
        get_sheet_name names none none = Except.ok s) ∧
      (names.head? = none →
        get_sheet_name names none none = Except.error "No worksheets found") := by
  refine ⟨rfl, ?_, ?_, ?_, ?_⟩
  · intro s hs
    simp only [get_sheet_name]
    rw [hs]
  · intro hs
    simp only [get_sheet_name]
    rw [hs]
  · intro s hs
    simp only [get_sheet_name]
    rw [hs]
  · intro hs
    simp only [get_sheet_name]
    rw [hs]

/-- Witness for C9 at concrete workbooks. -/
theorem get_sheet_name_resolution_witness :
    (get_sheet_name ["s1", "s2"] (some "X") (some 5) = Except.ok "X") ∧
      (get_sheet_name ["s1", "s2"] none (some 1) = Except.ok "s2") ∧
      (get_sheet_name ["s1", "s2"] none (some 5) =
        Except.error ("Sheet index " ++ toString 5 ++ " out of bounds")) ∧
      (get_sheet_name ["s1", "s2"] none none = Except.ok "s1") ∧
      (get_sheet_name ([] : List String) none none =
        Except.error "No worksheets found") :=
  ⟨(get_sheet_name_resolution ["s1", "s2"] "X" (some 5) 5).1,
    (get_sheet_name_resolution ["s1", "s2"] "X" (some 1) 1).2.1 "s2" rfl,
    (get_sheet_name_resolution ["s1", "s2"] "X" (some 5) 5).2.2.1 rfl,
    (get_sheet_name_resolution ["s1", "s2"] "X" none 0).2.2.2.1 "s1" rfl,
    (get_sheet_name_resolution ([] : List String) "X" none 0).2.2.2.2 rfl⟩

/-- Witness for the amended C8 at a concrete state and arrival. -/
theorem writer_stale_id_warns_only_witness :
    (writerStep ({ buffer := [], next_expected_id := 1, written := ["x"] } :
        WriterState String) (0, "b")).written = ["x"] ∧
      (writerStep ({ buffer := [], next_expected_id := 1, written := ["x"] } :
        WriterState String) (0, "b")).next_expected_id = 1 ∧
      lookupA (writerStep ({ buffer := [], next_expected_id := 1, written := ["x"] } :
        WriterState String) (0, "b")).buffer 0 = some "b" ∧
      writerFinish ([((1 : Nat), "c")].foldl writerStep
        (writerStep ({ buffer := [], next_expected_id := 1, written := ["x"] } :
          WriterState String) (0, "b"))) = (true, Except.ok ()) :=
  writer_stale_id_warns_only
    { buffer := [], next_expected_id := 1, written := ["x"] } 0 "b" [(1, "c")]
    (by decide)

/-! ## The header builder implements the spec's dedup description -/

theorem dedupLoop_eq_renameDupsSpec :
    ∀ (l : List String) (seen : List (String × Nat)) (pre : List String),
      (∀ s, (lookupA seen s).getD 0 = pre.count s) →
      dedupLoop l seen = renameDupsSpec pre l := by
  intro l
  induction l with
  | nil =>
    intro seen pre _
    rfl
  | cons h rest ih =>
    intro seen pre hcount
    simp only [dedupLoop, renameDupsSpec, hcount h]
    congr 1
    · by_cases hc : pre.count h = 0
      · simp [hc]
      · have h1 : pre.count h + 1 > 1 := by omega
        have h2 : ¬ (pre.count h + 1 = 1) := by omega
        simp [h1, h2]
    · apply ih
      intro s
      rw [lookupA_insertA]
      by_cases hs : h = s
      · rw [if_pos hs]
        simp only [Option.getD_some]
        rw [← hs, List.count_append]
        simp
      · rw [if_neg hs, hcount s, List.count_append]
        have : List.count s [h] = 0 := by
          simp [List.count_singleton]
          intro hc
          exact hs hc
        omega

/-- Claim C5: the Column Name List takes, per position, the header text (or
empty), replaces empties with `Field_<position>`, and resolves duplicates
left-to-right, keeping the first occurrence and renaming the k-th repeat to
`<name>_<k>`; header cells `["A", "", "A", "B"]` yield exactly
`["A", "Field_1", "A_2", "B"]`. -/
theorem build_headers_matches_spec (cells : List (Nat × String))
    (num_cols start_col : Nat) (hlist : List String) (i : Nat) :
    ((rawHeaders cells num_cols start_col)[i]? =
        if i < num_cols then some ((lookupA cells (start_col + i)).getD "") else none) ∧
      ((fillEmpty hlist)[i]? =
        (hlist[i]?).map (fun s => if s = "" then "Field_" ++ toString i else s)) ∧
      (build_headers cells num_cols start_col =
        renameDupsSpec [] (fillEmpty (rawHeaders cells num_cols start_col))) ∧
      (build_headers [(0, "A"), (1, ""), (2, "A"), (3, "B")] 4 0 =
        ["A", "Field_1", "A_2", "B"]) := by
  refine ⟨?_, ?_, ?_, by decide⟩
  · rw [rawHeaders, List.getElem?_map]
    by_cases hi : i < num_cols
    · rw [List.getElem?_range hi, if_pos hi]
      rfl
    · rw [List.getElem?_eq_none (by simpa using Nat.le_of_not_lt hi), if_neg hi]
      rfl
  · rw [fillEmpty, List.getElem?_map, List.getElem?_enum]
    cases hlist[i]? with
    | none => rfl
    | some s => rfl
  · exact dedupLoop_eq_renameDupsSpec _ [] [] (by intro s; simp [lookupA])

/-! ## The batch transform: grouping, sorting, and slot lookup -/

theorem lookupCell_rowMapStep (acc : List (Nat × List (Nat × String)) × List Nat)
    (x : RawCell) (r c : Nat) :
    lookupCell (rowMapStep acc x).1 r c =
      if x.1 = r ∧ x.2.1 = c then some x.2.2 else lookupCell acc.1 r c := by
  obtain ⟨map, rows⟩ := acc
  obtain ⟨xr, xc, xv⟩ := x
  cases hlook : lookupA map xr with
  | some m =>
    have hstep : (rowMapStep (map, rows) (xr, xc, xv)).1 =
        insertA map xr (insertA m xc xv) := by
      simp only [rowMapStep, hlook]
    rw [hstep]
    show lookupCell (insertA map xr (insertA m xc xv)) r c = _
    unfold lookupCell
    rw [lookupA_insertA]
    by_cases hr : xr = r
    · rw [if_pos hr, Option.some_bind, lookupA_insertA]
      by_cases hcc : xc = c
      · rw [if_pos hcc, if_pos ⟨hr, hcc⟩]
      · rw [if_neg hcc, if_neg (fun hcon => hcc hcon.2)]
        rw [← hr, hlook, Option.some_bind]
    · rw [if_neg hr, if_neg (fun hcon => hr hcon.1)]
  | none =>
    have hstep : (rowMapStep (map, rows) (xr, xc, xv)).1 =
        insertA map xr (insertA [] xc xv) := by
      simp only [rowMapStep, hlook]
    rw [hstep]
    show lookupCell (insertA map xr (insertA [] xc xv)) r c = _
    unfold lookupCell
    rw [lookupA_insertA]
    by_cases hr : xr = r
    · rw [if_pos hr, Option.some_bind, lookupA_insertA]
      by_cases hcc : xc = c
      · rw [if_pos hcc, if_pos ⟨hr, hcc⟩]
      · rw [if_neg hcc, if_neg (fun hcon => hcc hcon.2)]
        rw [← hr, hlook]
        rfl
    · rw [if_neg hr, if_neg (fun hcon => hr hcon.1)]

theorem lastVal_nil (r c : Nat) : lastVal [] r c = none := rfl

theorem lastVal_cons (x : RawCell) (xs : List RawCell) (r c : Nat) :
    lastVal (x :: xs) r c =
      (lastVal xs r c).or (if x.1 = r ∧ x.2.1 = c then some x.2.2 else none) := by
  unfold lastVal
  rw [List.filter_cons]
  by_cases hx : x.1 = r ∧ x.2.1 = c
  · have hb : (decide (x.1 = r) && decide (x.2.1 = c)) = true := by
      simp [hx.1, hx.2]
    rw [if_pos hb, if_pos hx, List.map_cons]
    rw [show x.2.2 :: (List.map (fun y => y.2.2)
        (List.filter (fun y => decide (y.1 = r) && decide (y.2.1 = c)) xs)) =
      [x.2.2] ++ (List.map (fun y => y.2.2)
        (List.filter (fun y => decide (y.1 = r) && decide (y.2.1 = c)) xs)) from rfl]
    rw [List.getLast?_append]
    rfl
  · have hb : (decide (x.1 = r) && decide (x.2.1 = c)) = false := by
      by_cases h1 : x.1 = r
      · have h2 : ¬ x.2.1 = c := fun hc2 => hx ⟨h1, hc2⟩
        simp [h1, h2]
      · simp [h1]
    rw [if_neg (by rw [hb]; exact Bool.false_ne_true), if_neg hx, Option.or_none]

theorem lookupCell_foldl :
    ∀ (cells : List RawCell) (acc : List (Nat × List (Nat × String)) × List Nat)
      (r c : Nat),
      lookupCell (cells.foldl rowMapStep acc).1 r c =
        (lastVal cells r c).or (lookupCell acc.1 r c) := by
  intro cells
  induction cells with
  | nil =>
    intro acc r c
    rw [List.foldl_nil, lastVal_nil, Option.none_or]
  | cons x xs ih =>
    intro acc r c
    rw [List.foldl_cons, ih, lookupCell_rowMapStep, lastVal_cons, Option.or_assoc]
    by_cases hx : x.1 = r ∧ x.2.1 = c
    · rw [if_pos hx, if_pos hx]
      rfl
    · rw [if_neg hx, if_neg hx, Option.none_or]

theorem lookupCell_buildRowMap (cells : List RawCell) (r c : Nat) :
    lookupCell (buildRowMap cells).1 r c = lastVal cells r c := by
  unfold buildRowMap
  rw [lookupCell_foldl]
  show (lastVal cells r c).or (lookupCell [] r c) = _
  rw [show lookupCell [] r c = none from rfl, Option.or_none]

theorem rowMap_rows_foldl :
    ∀ (cells : List RawCell) (acc : List (Nat × List (Nat × String)) × List Nat),
      (∀ r, r ∈ acc.2 ↔ (lookupA acc.1 r).isSome = true) → acc.2.Nodup →
      ((∀ r, r ∈ (cells.foldl rowMapStep acc).2 ↔
          (lookupA (cells.foldl rowMapStep acc).1 r).isSome = true) ∧
        (cells.foldl rowMapStep acc).2.Nodup ∧
        (∀ r, r ∈ (cells.foldl rowMapStep acc).2 ↔
          (r ∈ acc.2 ∨ r ∈ cells.map (fun y => y.1)))) := by
  intro cells
  induction cells with
  | nil =>
    intro acc h1 h2
    exact ⟨h1, h2, fun r => by simp⟩
  | cons x xs ih =>
    intro acc h1 h2
    rw [List.foldl_cons]
    obtain ⟨map, rows⟩ := acc
    obtain ⟨xr, xc, xv⟩ := x
    cases hlook : lookupA map xr with
    | some m =>
      have hstep : rowMapStep (map, rows) (xr, xc, xv) =
          (insertA map xr (insertA m xc xv), rows) := by
        simp only [rowMapStep, hlook]
      rw [hstep]
      have hxr_rows : xr ∈ rows := (h1 xr).mpr (by rw [hlook]; rfl)
      have h1a : ∀ r, r ∈ rows ↔
          (lookupA (insertA map xr (insertA m xc xv)) r).isSome = true := by
        intro r
        rw [lookupA_insertA]
        by_cases hr : xr = r
        · rw [if_pos hr]
          simp [← hr, hxr_rows]
        · rw [if_neg hr]
          exact h1 r
      obtain ⟨g1, g2, g3⟩ := ih (insertA map xr (insertA m xc xv), rows) h1a h2
      refine ⟨g1, g2, fun r => ?_⟩
      rw [g3 r]
      simp only [List.map_cons, List.mem_cons]
      constructor
      · rintro (h | h)
        · exact Or.inl h
        · exact Or.inr (Or.inr h)
      · rintro (h | h | h)
        · exact Or.inl h
        · exact Or.inl (h ▸ hxr_rows)
        · exact Or.inr h
    | none =>
      have hstep : rowMapStep (map, rows) (xr, xc, xv) =
          (insertA map xr (insertA [] xc xv), rows ++ [xr]) := by
        simp only [rowMapStep, hlook]
      rw [hstep]
      have hxr_not : xr ∉ rows := by
        intro hmem
        have hsome := (h1 xr).mp hmem
        rw [hlook] at hsome
        exact Bool.noConfusion hsome
      have h1a : ∀ r, r ∈ rows ++ [xr] ↔
          (lookupA (insertA map xr (insertA [] xc xv)) r).isSome = true := by
        intro r
        rw [lookupA_insertA, List.mem_append, List.mem_singleton]
        by_cases hr : xr = r
        · rw [if_pos hr]
          simp [← hr]
        · rw [if_neg hr]
          constructor
          · rintro (h | h)
            · exact (h1 r).mp h
            · exact absurd h.symm hr
          · intro h
            exact Or.inl ((h1 r).mpr h)
      have h2a : (rows ++ [xr]).Nodup := by
        rw [List.nodup_append]
        refine ⟨h2, List.nodup_singleton _, ?_⟩
        intro a ha hmem
        rw [List.mem_singleton] at hmem
        exact hxr_not (hmem ▸ ha)
      obtain ⟨g1, g2, g3⟩ := ih (insertA map xr (insertA [] xc xv), rows ++ [xr]) h1a h2a
      refine ⟨g1, g2, fun r => ?_⟩
      rw [g3 r]
      simp only [List.mem_append, List.mem_singleton, List.map_cons, List.mem_cons]
      tauto

theorem buildRowMap_rows (cells : List RawCell) :
    (∀ r, r ∈ (buildRowMap cells).2 ↔ r ∈ cells.map (fun y => y.1)) ∧
      (buildRowMap cells).2.Nodup := by
  obtain ⟨g1, g2, g3⟩ := rowMap_rows_foldl cells ([], [])
    (by intro r; simp [lookupA]) List.nodup_nil
  refine ⟨fun r => ?_, g2⟩
  have := g3 r
  simpa using this

theorem batchRows_perm (cells : List RawCell) :
    (batchRows cells).Perm (buildRowMap cells).2 :=
  List.perm_insertionSort _ _

theorem batchRows_sorted (cells : List RawCell) :
    List.Sorted (fun a b => a ≤ b) (batchRows cells) :=
  List.sorted_insertionSort _ _

theorem batchRows_nodup (cells : List RawCell) : (batchRows cells).Nodup :=
  (batchRows_perm cells).nodup_iff.mpr (buildRowMap_rows cells).2

theorem mem_batchRows (cells : List RawCell) (r : Nat) :
    r ∈ batchRows cells ↔ r ∈ cells.map (fun y => y.1) := by
  rw [(batchRows_perm cells).mem_iff]
  exact (buildRowMap_rows cells).1 r

theorem batchRows_perm_dedup (cells : List RawCell) :
    (batchRows cells).Perm ((cells.map (fun y => y.1)).dedup) :=
  (List.perm_ext_iff_of_nodup (batchRows_nodup cells) (List.nodup_dedup _)).mpr
    (fun a => by rw [mem_batchRows, List.mem_dedup])

theorem batchRows_length (cells : List RawCell) :
    (batchRows cells).length = ((cells.map (fun y => y.1)).dedup).length :=
  (batchRows_perm_dedup cells).length_eq

theorem recordBatchTryNew_ok (n k : Nat) (cols : List (List (Option String)))
    (h1 : cols.length = n) (h2 : ∀ col ∈ cols, col.length = k) :
    recordBatchTryNew n cols = Except.ok cols := by
  have hcond : (cols.length == n &&
      cols.all (fun col => col.length == (cols.head?.map List.length).getD 0)) = true := by
    rw [Bool.and_eq_true]
    refine ⟨by simp [h1], ?_⟩
    rw [List.all_eq_true]
    intro col hcol
    have hcl := h2 col hcol
    cases cols with
    | nil => simp at hcol
    | cons c0 rest =>
      have hc0 := h2 c0 (List.mem_cons_self _ _)
      simp [hc0, hcl]
  unfold recordBatchTryNew
  rw [if_pos hcond]

theorem create_record_batch_from_cells_ok (n : Nat) (cells : List RawCell) (sc : Nat) :
    create_record_batch_from_cells n cells sc =
      Except.ok ((List.range n).map (fun i =>
        (batchRows cells).map (fun r => lastVal cells r (sc + i)))) := by
  unfold create_record_batch_from_cells
  have hrw : (List.range n).map (fun i => (batchRows cells).map (fun r =>
      lookupCell (buildRowMap cells).1 r (sc + i))) =
      (List.range n).map (fun i => (batchRows cells).map (fun r =>
      lastVal cells r (sc + i))) := by
    simp only [lookupCell_buildRowMap]
  rw [hrw]
  apply recordBatchTryNew_ok n ((batchRows cells).length)
  · simp
  · intro col hcol
    rcases List.mem_map.mp hcol with ⟨i, _, heq⟩
    rw [← heq]
    simp

theorem worker_process_ok (id : Nat) (cells : List RawCell) (n sc : Nat) :
    worker_process n sc (id, cells) =
      Except.ok (id, (List.range n).map (fun i =>
        (batchRows cells).map (fun r => lastVal cells r (sc + i)))) := by
  unfold worker_process
  rw [show ((id, cells) : RawBatch).2 = cells from rfl,
    create_record_batch_from_cells_ok]

/-- Claim C6: for every Raw Batch, the transform succeeds and yields a
Columnar Batch with the same sequence id, one array per header column, all
arrays as long as the number of distinct row indices in the batch, rows
emitted in ascending row-index order, and each `(row, column)` slot holding
the cell's value or absent (`none`, not an empty string) exactly when the
batch has no cell there. -/
theorem batch_transform_columnar_shape (id : Nat) (cells : List RawCell) (n sc : Nat) :
    (worker_process n sc (id, cells) =
        Except.ok (id, (List.range n).map (fun i =>
          (batchRows cells).map (fun r => lastVal cells r (sc + i))))) ∧
      (((List.range n).map (fun i =>
          (batchRows cells).map (fun r => lastVal cells r (sc + i)))).length = n) ∧
      List.Sorted (fun a b => a ≤ b) (batchRows cells) ∧
      (batchRows cells).Nodup ∧
      (batchRows cells).Perm ((cells.map (fun y => y.1)).dedup) ∧
      (((List.range n).map (fun i =>
          (batchRows cells).map (fun r => lastVal cells r (sc + i)))).all
        (fun col => col.length == ((cells.map (fun y => y.1)).dedup).length) = true) ∧
      (∀ r c, lastVal cells r c = none ↔
        cells.filter (fun y => decide (y.1 = r) && decide (y.2.1 = c)) = []) := by
  refine ⟨worker_process_ok id cells n sc, by simp, batchRows_sorted cells,
    batchRows_nodup cells, batchRows_perm_dedup cells, ?_, ?_⟩
  · rw [List.all_eq_true]
    intro col hcol
    rcases List.mem_map.mp hcol with ⟨i, _, heq⟩
    rw [← heq]
    simp [batchRows_length cells]
  · intro r c
    unfold lastVal
    rw [List.getLast?_eq_none_iff, List.map_eq_nil_iff]

/-! ## Duplicate cells at one position: the latest value wins -/

/-- Claim C10: when the cell list contains two or more cells at the same
(row, column) position, the value recorded in the Columnar Batch at that
slot is the one of the cell appearing latest in the list, and every column
array still has one slot per distinct row index. -/
theorem batch_transform_latest_duplicate_wins
    (l1 l2 : List RawCell) (r c : Nat) (v1 v2 : String) (id n sc d : Nat)
    (hfirst : (r, c, v1) ∈ l1)
    (hafter : ∀ x ∈ l2, ¬ (x.1 = r ∧ x.2.1 = c))
    (hc : c = sc + d) (hd : d < n) :
    ∃ out, worker_process n sc (id, l1 ++ (r, c, v2) :: l2) = Except.ok (id, out) ∧
      (∃ col, out[d]? = some col ∧
        col[(batchRows (l1 ++ (r, c, v2) :: l2)).indexOf r]? = some (some v2)) ∧
      out.all (fun col => col.length ==
        (((l1 ++ (r, c, v2) :: l2).map (fun y => y.1)).dedup).length) = true := by
  refine ⟨(List.range n).map (fun i =>
      (batchRows (l1 ++ (r, c, v2) :: l2)).map
        (fun row => lastVal (l1 ++ (r, c, v2) :: l2) row (sc + i))),
    worker_process_ok id _ n sc,
    ⟨(batchRows (l1 ++ (r, c, v2) :: l2)).map
        (fun row => lastVal (l1 ++ (r, c, v2) :: l2) row (sc + d)), ?_, ?_⟩, ?_⟩
  · rw [List.getElem?_map, List.getElem?_range hd]
    rfl
  · have hrmem : r ∈ batchRows (l1 ++ (r, c, v2) :: l2) := by
      rw [mem_batchRows]
      exact List.mem_map_of_mem (fun y => y.1)
        (List.mem_append_right l1 (List.mem_cons_self _ _))
    have hidx : (batchRows (l1 ++ (r, c, v2) :: l2)).indexOf r <
        (batchRows (l1 ++ (r, c, v2) :: l2)).length :=
      List.indexOf_lt_length.mpr hrmem
    rw [List.getElem?_map, List.getElem?_eq_getElem hidx, List.getElem_indexOf hidx]
    have hlast : lastVal (l1 ++ (r, c, v2) :: l2) r (sc + d) = some v2 := by
      rw [← hc]
      unfold lastVal
      rw [List.filter_append, List.filter_cons]
      have hb : (decide ((r, c, v2).1 = r) && decide ((r, c, v2).2.1 = c)) = true := by
        simp
      rw [if_pos hb]
      have hl2 : List.filter
          (fun y => decide (y.1 = r) && decide (y.2.1 = c)) l2 = [] := by
        rw [List.filter_eq_nil_iff]
        intro a ha
        have := hafter a ha
        simp only [Bool.and_eq_true, decide_eq_true_eq]
        exact this
      rw [hl2, List.map_append, List.map_cons, List.map_nil, List.getLast?_append]
      rfl
    rw [show Option.map (fun row => lastVal (l1 ++ (r, c, v2) :: l2) row (sc + d))
        (some r) = some (lastVal (l1 ++ (r, c, v2) :: l2) r (sc + d)) from rfl, hlast]
  · rw [List.all_eq_true]
    intro col hcol
    rcases List.mem_map.mp hcol with ⟨i, _, heq⟩
    rw [← heq]
    simp [batchRows_length]

/-- Witness for C10: duplicate cells at `(5, 3)` with values "x" then "y"
record "y". -/
theorem batch_transform_latest_duplicate_wins_witness :
    ∃ out, worker_process 1 3 (0, [(5, 3, "x"), (5, 3, "y")]) = Except.ok (0, out) ∧
      (∃ col, out[0]? = some col ∧
        col[(batchRows [(5, 3, "x"), (5, 3, "y")]).indexOf 5]? = some (some "y")) ∧
      out.all (fun col => col.length ==
        ((([(5, 3, "x"), (5, 3, "y")].map (fun y => y.1)).dedup).length)) = true :=
  batch_transform_latest_duplicate_wins [(5, 3, "x")] [] 5 3 "x" "y" 0 1 3 0
    (by simp) (by simp) rfl (by decide)

/-! ## Concrete runs exhibiting the accumulator's behavior -/

/-- Claim C2 (code bug): on this concrete stream the first data-row cell
`(1,0,"a")` — the very cell whose arrival triggers the HEADER→STREAMING
transition — is inserted into the already-consumed header cell map by
`handle_header_phase` and reaches no Raw Batch: the sealed batches contain
only the later cell `(1,1,"b")`. -/
theorem transition_trigger_cell_lost :
    ((finish_sends (runCells (Ctx.new ⟨0, 1, 0, 1⟩ 0 10)
        [(0, 0, "h1"), (0, 1, "h2"), (1, 0, "a"), (1, 1, "b")])).sent =
      [(0, [(1, 1, "b")])]) ∧
      (((finish_sends (runCells (Ctx.new ⟨0, 1, 0, 1⟩ 0 10)
          [(0, 0, "h1"), (0, 1, "h2"), (1, 0, "a"), (1, 1, "b")])).sent.map
            (fun b => b.2)).flatten.elem ((1, 0, "a") : RawCell) = false) :=
  ⟨rfl, rfl⟩

/-- Claim C3 (code bug): on a worksheet holding only a header row the run
never reaches a row change, so `start_workers_and_writer` is never called:
`workers_started` stays false, no schema is fixed (`headers = none`, hence no
writer thread and no output file), and nothing is sent. -/
theorem header_only_sheet_never_starts_writer :
    ((finish_sends (runCells (Ctx.new ⟨0, 0, 0, 1⟩ 0 10)
        [(0, 0, "A"), (0, 1, "B")])).workers_started = false) ∧
      ((finish_sends (runCells (Ctx.new ⟨0, 0, 0, 1⟩ 0 10)
        [(0, 0, "A"), (0, 1, "B")])).headers = none) ∧
      ((finish_sends (runCells (Ctx.new ⟨0, 0, 0, 1⟩ 0 10)
        [(0, 0, "A"), (0, 1, "B")])).sent = []) ∧
      ((finish_sends (runCells (Ctx.new ⟨0, 0, 0, 1⟩ 0 10)
        [(0, 0, "A"), (0, 1, "B")])).total_rows = 0) :=
  ⟨rfl, rfl, rfl, rfl⟩

/-- Claim C7 (code bug): with `batch_size = 2` and a single-cell first data
row, the batch sealed when the row counter reaches the batch size contains
cells of only 1 distinct data row (the first data row's sole cell was
consumed by the header phase), though sequence ids are still `0, 1, ...`
gap-free. -/
theorem first_sealed_batch_misses_a_row :
    ((Ctx.new ⟨0, 3, 0, 1⟩ 0 2).batch_size = 2) ∧
      ((runCells (Ctx.new ⟨0, 3, 0, 1⟩ 0 2)
          [(0, 0, "h"), (1, 0, "a"), (2, 0, "b"), (2, 1, "b2"), (3, 0, "c")]).sent =
        [(0, [(2, 0, "b"), (2, 1, "b2")])]) ∧
      (((runCells (Ctx.new ⟨0, 3, 0, 1⟩ 0 2)
          [(0, 0, "h"), (1, 0, "a"), (2, 0, "b"), (2, 1, "b2"), (3, 0, "c")]).sent.map
            (fun b => ((b.2.map (fun x => x.1)).dedup).length)) = [1]) ∧
      ((finish_sends (runCells (Ctx.new ⟨0, 3, 0, 1⟩ 0 2)
          [(0, 0, "h"), (1, 0, "a"), (2, 0, "b"), (2, 1, "b2"), (3, 0, "c")])).sent.map
            (fun b => b.1) = [0, 1]) :=
  ⟨rfl, rfl, by decide, rfl⟩

end DataToParquet
